import Mathlib

/-!
Shallow embedding of the todo-list task/category core:
`src/js/store.js` (the generic `Store`) and the current revision of the
model file in `src/unnamed/part_000` (lines 172-387: `Model` with
`_getCategoryIdByName` and `_joinCategories`).

JavaScript records are modelled as association lists of string keys and
`JSVal` values; reading an absent property yields `JSVal.undef`, exactly as
property access on a JS object yields `undefined`.  The store's backing
medium (`localStorage`) is synchronous, so every callback in the source
runs inline before the next statement; the embedding therefore threads the
two collections (`DB`) through each operation as explicit state.  Fresh ids
come from `new Date().getTime()`; the embedding takes the timestamp of each
potential fresh save as an explicit `Nat` argument.  A thrown `TypeError`
(dereferencing an `undefined` lookup result) is modelled as an
`Except.error ()` result, with the state at the throw point preserved.
-/

set_option autoImplicit false

deriving instance DecidableEq for Except

/-- Fragment of JavaScript values that the two source files store and
compare: numbers (all produced values are naturals: `Date.getTime()`
timestamps and `parseInt` results), strings, booleans and `undefined`. -/
inductive JSVal where
  | num (n : Nat)
  | str (s : String)
  | bool (b : Bool)
  | undef
  deriving DecidableEq

/-- ASCII whitespace as recognised by the trim operations used here. -/
def isWsChar (c : Char) : Bool :=
  c = ' ' || c = '\t' || c = '\n' || c = '\r'

/-- Leading- and trailing-whitespace removal on a character list. -/
def trimChars (l : List Char) : List Char :=
  ((l.dropWhile isWsChar).reverse.dropWhile isWsChar).reverse

/-- Models `String.prototype.trim` (on the ASCII-whitespace fragment). -/
def jsTrim (s : String) : String :=
  ⟨trimChars s.data⟩

/-- Value of a list of decimal digit characters. -/
def digitsVal (l : List Char) : Nat :=
  l.foldl (fun acc c => acc * 10 + (c.toNat - '0'.toNat)) 0

/-- Models the `ToNumber` coercion applied to a string by `==`, on the
fragment exercised here: surrounding whitespace is ignored, the empty
string denotes `0`, a non-empty run of decimal digits denotes its value,
and anything else (sign, exponent, letters) is `NaN`, returned as `none`
(`NaN` compares unequal to everything). -/
def jsStrToNumber (s : String) : Option Nat :=
  let t := trimChars s.data
  if t = [] then some 0
  else if t.all (·.isDigit) then some (digitsVal t) else none

/-- Models `parseInt(x, 10)` on the values that reach it: a number is
already integral, a string is parsed after leading whitespace as a
non-empty run of decimal digits (trailing garbage ignored); everything
else is `NaN`, returned as `none`. -/
def jsParseInt : JSVal → Option Nat
  | .num n => some n
  | .str s =>
    let digits := (s.data.dropWhile isWsChar).takeWhile (·.isDigit)
    if digits = [] then none else some (digitsVal digits)
  | .bool _ => none
  | .undef => none

/-- JavaScript truthiness of a value (`if (id)` in `Store.save`). -/
def jsTruthy : JSVal → Bool
  | .num n => n ≠ 0
  | .str s => s ≠ ""
  | .bool b => b
  | .undef => false

/-- Whether a value is a number (used to state that a store's ids are
numeric, as `Store.save`-generated ids always are). -/
def JSVal.isNum : JSVal → Bool
  | .num _ => true
  | _ => false

/-- Models loose equality `==` on the value fragment: same-type values
compare structurally, a number and a string compare via `ToNumber` of the
string, booleans coerce to `0`/`1` first, and `undefined` equals only
`undefined` (there is no `null` in this code). -/
def looseEq : JSVal → JSVal → Bool
  | .num a, .num b => a = b
  | .str a, .str b => a = b
  | .bool a, .bool b => a = b
  | .undef, .undef => true
  | .num a, .str s => (jsStrToNumber s).elim false (a = ·)
  | .str s, .num a => (jsStrToNumber s).elim false (a = ·)
  | .num a, .bool b => a = (if b then 1 else 0)
  | .bool b, .num a => a = (if b then 1 else 0)
  | .str s, .bool b => (jsStrToNumber s).elim false ((if b then 1 else 0) = ·)
  | .bool b, .str s => (jsStrToNumber s).elim false ((if b then 1 else 0) = ·)
  | _, _ => false

/-- A JavaScript record: an association list of own properties.  Objects
built by the source always have pairwise-distinct keys (a JS object cannot
hold two own properties of the same name). -/
abbrev JSObj : Type := List (String × JSVal)

/-- Property read, `obj[k]`: the value at the first matching key, or
`undefined` when the property is absent. -/
def getField : JSObj → String → JSVal
  | [], _ => .undef
  | (k, v) :: rest, key => if k = key then v else getField rest key

/-- Property write, `obj[k] = v` (also `{...obj, k: v}`): an existing key
keeps its position and gets the new value, a new key is appended. -/
def setField : JSObj → String → JSVal → JSObj
  | [], key, v => [(key, v)]
  | (k, w) :: rest, key, v =>
    if k = key then (key, v) :: rest else (k, w) :: setField rest key v

/-- Rest destructuring `{k, ...rest} = obj`: all own properties except `k`. -/
def removeField (obj : JSObj) (key : String) : JSObj :=
  obj.filter (fun kv => kv.1 ≠ key)

/-- Models `'k' in obj`. -/
def hasField (obj : JSObj) (key : String) : Bool :=
  obj.any (fun kv => kv.1 = key)

/-- Models `for (var key in data) target[key] = data[key]` (the merge loop
of `Store.save`) and the object spread `{...target, ...}`. -/
def mergeFields (target data : JSObj) : JSObj :=
  data.foldl (fun acc kv => setField acc kv.1 kv.2) target

namespace Store

/-- Predicate of `Store.find`: every own field of the query strictly
(`!==`) equals the record's field of the same name. -/
def fieldsMatch (query item : JSObj) : Bool :=
  query.all (fun kv => getField item kv.1 = kv.2)

/-- Models `Store.prototype.find`: the records matching every query field. -/
def find (query : JSObj) (items : List JSObj) : List JSObj :=
  items.filter (fieldsMatch query)

/-- Models `Store.prototype.findById`: the first record whose `id` loosely
(`==`) equals the argument, or `undefined` (here `none`). -/
def findById (items : List JSObj) (id : JSVal) : Option JSObj :=
  match items with
  | [] => none
  | item :: rest =>
    if looseEq (getField item "id") id then some item else findById rest id

/-- Models `Store.prototype.findAll`. -/
def findAll (items : List JSObj) : List JSObj := items

/-- Update branch of `Store.prototype.save`: merge `data` into the first
record whose `id` strictly (`===`) equals `id`; no-op when none matches. -/
def saveUpdate (items : List JSObj) (data : JSObj) (id : JSVal) : List JSObj :=
  match items with
  | [] => []
  | item :: rest =>
    if getField item "id" = id then mergeFields item data :: rest
    else item :: saveUpdate rest data id

/-- Models `Store.prototype.save`.  With a truthy `id` it merges into the
matching record and hands the whole collection to the callback; otherwise
it stamps `data` with a fresh id (`new Date().getTime()`, the timestamp
passed here as `t`), appends it, and hands `[data]` to the callback.
Returns (new collection, callback argument). -/
def save (items : List JSObj) (data : JSObj) (id : JSVal) (t : Nat) :
    List JSObj × List JSObj :=
  if jsTruthy id then
    let items' := saveUpdate items data id
    (items', items')
  else
    let data' := setField data "id" (.num t)
    (items ++ [data'], [data'])

/-- Models `Store.prototype.remove`: delete the first record whose `id`
loosely (`==`) equals the argument; no-op when none matches. -/
def remove (items : List JSObj) (id : JSVal) : List JSObj :=
  match items with
  | [] => []
  | item :: rest =>
    if looseEq (getField item "id") id then rest
    else item :: remove rest id

/-- Models `Store.prototype.drop`. -/
def drop : List JSObj := []

end Store

/-- The two collections the model orchestrates: one task store and one
category store (two independent `Store` instances). -/
structure DB where
  tasks : List JSObj
  categories : List JSObj
  deriving DecidableEq

namespace Model

/-- The state before any data was written: both collections empty. -/
def emptyDB : DB := ⟨[], []⟩

/-- Models `Model.prototype._getCategoryIdByName`: query the category
store for an exact-name match; reuse the first match's id, or save a new
`{name}` record (fresh id `t`) and use its id.  Returns the updated state
and the resolved id.  Note the name value is used exactly as given (the
caller `create` trims it first; `update` does not). -/
def getCategoryIdByName (db : DB) (nameVal : JSVal) (t : Nat) : DB × JSVal :=
  let found := Store.find [("name", nameVal)] db.categories
  if found = [] then
    let saved := Store.save db.categories [("name", nameVal)] .undef t
    ({ db with categories := saved.1 }, getField (saved.2.headD []) "id")
  else (db, getField (found.headD []) "id")

/-- Models `Model.prototype.create`: trim `title` and `categoryName`
(a falsy argument becomes `''`), resolve the category id, and save the
new task `{title, categoryId, completed: false}` (fresh id `t2`; `t1` is
the timestamp of the category save, if one happens).  Returns the updated
state and the callback argument. -/
def create (db : DB) (title categoryName : Option String) (t1 t2 : Nat) :
    DB × List JSObj :=
  let title' := match title with
    | some s => if jsTruthy (.str s) then jsTrim s else ""
    | none => ""
  let categoryName' := match categoryName with
    | some s => if jsTruthy (.str s) then jsTrim s else ""
    | none => ""
  let r := getCategoryIdByName db (.str categoryName') t1
  let newTask : JSObj :=
    [("title", .str title'), ("categoryId", r.2), ("completed", .bool false)]
  let saved := Store.save r.1.tasks newTask .undef t2
  ({ r.1 with tasks := saved.1 }, saved.2)

/-- Models `Model.prototype._joinCategories`: build a `Map` from category
id to name over all categories, then return each task spread with a
`categoryName` property holding the map lookup of its `categoryId`
(`undefined` when the map has no such key). -/
def mapSet (m : List (JSVal × JSVal)) (k v : JSVal) : List (JSVal × JSVal) :=
  match m with
  | [] => [(k, v)]
  | (k', v') :: rest => if k' = k then (k, v) :: rest else (k', v') :: mapSet rest k v

/-- Lookup in the modelled `Map` (`Map.get`, SameValueZero key equality,
`undefined` on a missing key). -/
def mapGet (m : List (JSVal × JSVal)) (k : JSVal) : JSVal :=
  match m with
  | [] => .undef
  | (k', v) :: rest => if k' = k then v else mapGet rest k

/-- The bulk id-to-name map of `_joinCategories`
(`categories.forEach(c => map.set(c.id, c.name))`). -/
def buildCategoryMap (cats : List JSObj) : List (JSVal × JSVal) :=
  cats.foldl (fun m c => mapSet m (getField c "id") (getField c "name")) []

/-- Models `Model.prototype._joinCategories` applied to a task list. -/
def joinCategories (cats tasks : List JSObj) : List JSObj :=
  let m := buildCategoryMap cats
  tasks.map (fun task => setField task "categoryName" (mapGet m (getField task "categoryId")))

/-- Models `Model.prototype.read` called with only a callback: all tasks,
joined with category names.  Reads never write either store. -/
def readAll (db : DB) : List JSObj :=
  joinCategories db.categories (Store.findAll db.tasks)

/-- Models `Model.prototype.read` with a scalar (string/number) query:
`parseInt` the query, look the task up by id, look its category up by id,
and deliver the task spread with `categoryName: category.name`.  When the
task lookup misses, `task.categoryId` throws a `TypeError`; when the
category lookup misses, `category.name` throws: both are `Except.error`. -/
def readById (db : DB) (query : JSVal) : Except Unit JSObj :=
  let task? := match jsParseInt query with
    | some n => Store.findById db.tasks (.num n)
    | none => none
  match task? with
  | none => .error ()
  | some task =>
    match Store.findById db.categories (getField task "categoryId") with
    | none => .error ()
    | some category => .ok (setField task "categoryName" (getField category "name"))

/-- Models `Model.prototype.read` with an object query: the matching
tasks, joined with category names. -/
def readByQuery (db : DB) (query : JSObj) : List JSObj :=
  joinCategories db.categories (Store.find query db.tasks)

/-- Models `Model.prototype.update`.  When `data` carries `categoryName`,
that property is destructured away, the name (untrimmed) is resolved to
`newCategoryId`, and the task is looked up: a missing task throws
(`task.categoryId` on `undefined`) after the resolution already ran.  If
the id changed, the previous category is removed when at most one task
references it, and `categoryId: newCategoryId` is added to the remaining
data.  Finally the remaining data is merged into the task via
`Store.save` (`t2` is only consumed if `id` is falsy and the save
appends).  Returns the state and the callback argument or error. -/
def update (db : DB) (id : JSVal) (data : JSObj) (t t2 : Nat) :
    DB × Except Unit (List JSObj) :=
  if hasField data "categoryName" then
    let rest := removeField data "categoryName"
    let r := getCategoryIdByName db (getField data "categoryName") t
    match Store.findById r.1.tasks id with
    | none => (r.1, .error ())
    | some task =>
      if r.2 = getField task "categoryId" then
        let saved := Store.save r.1.tasks rest id t2
        ({ r.1 with tasks := saved.1 }, .ok saved.2)
      else
        let refs := Store.find [("categoryId", getField task "categoryId")] r.1.tasks
        let db2 :=
          if refs.length ≤ 1 then
            { r.1 with categories := Store.remove r.1.categories (getField task "categoryId") }
          else r.1
        let saved := Store.save db2.tasks (setField rest "categoryId" r.2) id t2
        ({ db2 with tasks := saved.1 }, .ok saved.2)
  else
    let saved := Store.save db.tasks data id t2
    ({ db with tasks := saved.1 }, .ok saved.2)

/-- Models `Model.prototype.remove`: look the task up by id (a missing
task throws a `TypeError` on `task.categoryId`, before anything was
written), count the tasks referencing its category, remove the category
when that count is at most 1, then remove the task and hand the resulting
task collection to the callback. -/
def remove (db : DB) (id : JSVal) : DB × Except Unit (List JSObj) :=
  match Store.findById db.tasks id with
  | none => (db, .error ())
  | some task =>
    let refs := Store.find [("categoryId", getField task "categoryId")] db.tasks
    let db1 :=
      if refs.length ≤ 1 then
        { db with categories := Store.remove db.categories (getField task "categoryId") }
      else db
    ({ db1 with tasks := Store.remove db1.tasks id }, .ok (Store.remove db1.tasks id))

/-- Models `Model.prototype.removeAll` (current revision): drop the
category store, drop the task store, call back with `[]`. -/
def removeAll (_db : DB) : DB × List JSObj :=
  ({ tasks := Store.drop, categories := Store.drop }, [])

/-- A call in a `create`/`update` sequence, with the timestamps its fresh
saves would draw from the clock. -/
inductive Op where
  | create (title categoryName : Option String) (t1 t2 : Nat)
  | update (id : JSVal) (data : JSObj) (t t2 : Nat)

/-- State reached after one call (callback results and thrown errors
discarded; a throw inside `update` keeps the writes made before it). -/
def runOp (db : DB) : Op → DB
  | .create title categoryName t1 t2 => (create db title categoryName t1 t2).1
  | .update id data t t2 => (update db id data t t2).1

/-- State reached after a sequence of calls. -/
def runOps (ops : List Op) (db : DB) : DB :=
  ops.foldl runOp db

/-- Trimmed form of a category record's stored name (for stating the
trimmed-name uniqueness property; names stored by this code are strings). -/
def trimmedName (c : JSObj) : Option String :=
  match getField c "name" with
  | .str s => some (jsTrim s)
  | _ => none

/-- Stored names of all live categories, in store order. -/
def catNames (db : DB) : List JSVal :=
  db.categories.map (fun c => getField c "name")

/-- Name held by the first category record whose `id` strictly equals the
given value (the straightforward reading of "the category whose id equals
the task's `categoryId`"), `undefined` when there is none. -/
def nameOfFirst (cats : List JSObj) (cid : JSVal) : JSVal :=
  match cats.find? (fun c => getField c "id" = cid) with
  | some c => getField c "name"
  | none => .undef

end Model

/-! ### Basic lemmas about record fields -/

theorem getField_setField_self (obj : JSObj) (k : String) (v : JSVal) :
    getField (setField obj k v) k = v := by
  induction obj with
  | nil => simp [setField, getField]
  | cons kv rest ih =>
    obtain ⟨k', w⟩ := kv
    by_cases h : k' = k <;> simp [setField, getField, h, ih]

theorem getField_setField_ne (obj : JSObj) (k k' : String) (v : JSVal)
    (h : k ≠ k') : getField (setField obj k v) k' = getField obj k' := by
  induction obj with
  | nil => simp [setField, getField, h]
  | cons kv rest ih =>
    obtain ⟨k'', w⟩ := kv
    by_cases h2 : k'' = k
    · subst h2
      simp [setField, getField, h]
    · simp [setField, getField, h2, ih]

theorem hasField_iff_mem_keys (obj : JSObj) (k : String) :
    hasField obj k = true ↔ k ∈ obj.map Prod.fst := by
  simp only [hasField, List.any_eq_true, decide_eq_true_eq, List.mem_map]

theorem hasField_cons (k' : String) (w : JSVal) (rest : JSObj) (k : String) :
    hasField ((k', w) :: rest) k = (decide (k' = k) || hasField rest k) := by
  simp [hasField]

theorem setField_cons (k' : String) (w : JSVal) (rest : JSObj) (k : String) (v : JSVal) :
    setField ((k', w) :: rest) k v =
      if k' = k then (k, v) :: rest else (k', w) :: setField rest k v := rfl

theorem hasField_setField (obj : JSObj) (k k' : String) (v : JSVal) :
    hasField (setField obj k v) k' = (hasField obj k' || decide (k = k')) := by
  induction obj with
  | nil => simp [setField, hasField]
  | cons kv rest ih =>
    obtain ⟨k'', w⟩ := kv
    by_cases h2 : k'' = k
    · subst h2
      rw [setField_cons, if_pos rfl, hasField_cons, hasField_cons]
      by_cases h3 : k'' = k' <;> simp [h3]
    · rw [setField_cons, if_neg h2, hasField_cons, hasField_cons, ih]
      simp [Bool.or_assoc]

theorem hasField_mergeFields (target data : JSObj) (k : String) :
    hasField (mergeFields target data) k = (hasField target k || hasField data k) := by
  induction data generalizing target with
  | nil => simp [mergeFields, hasField]
  | cons kv rest ih =>
    obtain ⟨k', v⟩ := kv
    show hasField (mergeFields (setField target k' v) rest) k = _
    rw [ih, hasField_setField]
    by_cases h : k' = k <;> simp [hasField, h]

theorem getField_mergeFields_of_not_has (target data : JSObj) (k : String)
    (h : hasField data k = false) :
    getField (mergeFields target data) k = getField target k := by
  induction data generalizing target with
  | nil => rfl
  | cons kv rest ih =>
    obtain ⟨k', v⟩ := kv
    have h1 : (decide (k' = k) || hasField rest k) = false := by
      simpa [hasField] using h
    rw [Bool.or_eq_false_iff] at h1
    show getField (mergeFields (setField target k' v) rest) k = _
    rw [ih _ h1.2, getField_setField_ne _ _ _ _ (of_decide_eq_false h1.1)]

theorem getField_mergeFields_of_mem (target data : JSObj) (k : String) (v : JSVal)
    (hnd : (data.map Prod.fst).Nodup) (hmem : (k, v) ∈ data) :
    getField (mergeFields target data) k = v := by
  induction data generalizing target with
  | nil => simp at hmem
  | cons kv rest ih =>
    obtain ⟨k', v'⟩ := kv
    simp only [List.map_cons, List.nodup_cons] at hnd
    show getField (mergeFields (setField target k' v') rest) k = v
    rcases List.mem_cons.mp hmem with h | h
    · rw [Prod.mk.injEq] at h
      obtain ⟨hk, hv⟩ := h
      subst hk; subst hv
      rw [getField_mergeFields_of_not_has]
      · exact getField_setField_self ..
      · by_contra hc
        rw [Bool.not_eq_false, hasField_iff_mem_keys] at hc
        exact hnd.1 hc
    · exact ih _ hnd.2 h

theorem mem_removeField (obj : JSObj) (k : String) (kv : String × JSVal) :
    kv ∈ removeField obj k ↔ kv ∈ obj ∧ kv.1 ≠ k := by
  simp [removeField, List.mem_filter]

theorem hasField_removeField_self (obj : JSObj) (k : String) :
    hasField (removeField obj k) k = false := by
  by_contra hc
  rw [Bool.not_eq_false, hasField, List.any_eq_true] at hc
  obtain ⟨kv, hkv, hk⟩ := hc
  exact ((mem_removeField obj k kv).mp hkv).2 (by simpa using hk)

theorem keys_removeField_sublist (obj : JSObj) (k : String) :
    ((removeField obj k).map Prod.fst).Sublist (obj.map Prod.fst) :=
  (List.filter_sublist obj).map Prod.fst

/-! ### Lemmas about `Store` operations -/

theorem Store.fieldsMatch_iff (query item : JSObj) :
    Store.fieldsMatch query item = true ↔ ∀ kv ∈ query, getField item kv.1 = kv.2 := by
  simp [Store.fieldsMatch, List.all_eq_true]

theorem Store.mem_find (query : JSObj) (items : List JSObj) (r : JSObj) :
    r ∈ Store.find query items ↔ r ∈ items ∧ Store.fieldsMatch query r = true := by
  simp [Store.find, List.mem_filter]

theorem Store.find_eq_nil_iff (query : JSObj) (items : List JSObj) :
    Store.find query items = [] ↔ ∀ r ∈ items, ¬ Store.fieldsMatch query r = true := by
  simp [Store.find, List.filter_eq_nil_iff]

theorem Store.findById_cons (item : JSObj) (rest : List JSObj) (id : JSVal) :
    Store.findById (item :: rest) id =
      if looseEq (getField item "id") id then some item
      else Store.findById rest id := rfl

theorem Store.findById_decomp (items : List JSObj) (id : JSVal) (r : JSObj)
    (h : Store.findById items id = some r) :
    looseEq (getField r "id") id = true ∧
      ∃ l1 l2, items = l1 ++ r :: l2 ∧
        ∀ x ∈ l1, looseEq (getField x "id") id = false := by
  induction items with
  | nil => simp [Store.findById] at h
  | cons item rest ih =>
    rw [Store.findById_cons] at h
    by_cases hm : looseEq (getField item "id") id = true
    · rw [if_pos hm] at h
      obtain rfl := Option.some.inj h
      exact ⟨hm, [], rest, rfl, by simp⟩
    · rw [if_neg hm] at h
      obtain ⟨hr, l1, l2, heq, hl1⟩ := ih h
      subst heq
      refine ⟨hr, item :: l1, l2, rfl, ?_⟩
      intro x hx
      rcases List.mem_cons.mp hx with rfl | hx'
      · simpa using hm
      · exact hl1 x hx'

theorem Store.findById_eq_none_iff (items : List JSObj) (id : JSVal) :
    Store.findById items id = none ↔
      ∀ x ∈ items, looseEq (getField x "id") id = false := by
  induction items with
  | nil => simp [Store.findById]
  | cons item rest ih =>
    rw [Store.findById_cons]
    by_cases hm : looseEq (getField item "id") id = true
    · simp [if_pos hm, hm]
    · simp only [if_neg hm, ih]
      constructor
      · intro h x hx
        rcases List.mem_cons.mp hx with rfl | hx'
        · simpa using hm
        · exact h x hx'
      · intro h x hx
        exact h x (List.mem_cons_of_mem _ hx)

theorem Store.remove_cons (item : JSObj) (rest : List JSObj) (id : JSVal) :
    Store.remove (item :: rest) id =
      if looseEq (getField item "id") id then rest
      else item :: Store.remove rest id := rfl

theorem Store.remove_of_decomp (l1 l2 : List JSObj) (r : JSObj) (id : JSVal)
    (h1 : ∀ x ∈ l1, looseEq (getField x "id") id = false)
    (h2 : looseEq (getField r "id") id = true) :
    Store.remove (l1 ++ r :: l2) id = l1 ++ l2 := by
  induction l1 with
  | nil => simp [Store.remove_cons, h2]
  | cons x rest ih =>
    have hx := h1 x (by simp)
    rw [List.cons_append, Store.remove_cons, hx]
    simp [ih (fun y hy => h1 y (List.mem_cons_of_mem x hy))]

theorem Store.remove_sublist (items : List JSObj) (id : JSVal) :
    (Store.remove items id).Sublist items := by
  induction items with
  | nil => simp [Store.remove]
  | cons item rest ih =>
    rw [Store.remove_cons]
    by_cases hm : looseEq (getField item "id") id = true
    · rw [if_pos hm]
      exact (List.Sublist.refl rest).cons item
    · rw [if_neg hm]
      exact ih.cons₂ item

theorem Store.remove_of_no_match (items : List JSObj) (id : JSVal)
    (h : ∀ x ∈ items, looseEq (getField x "id") id = false) :
    Store.remove items id = items := by
  induction items with
  | nil => rfl
  | cons item rest ih =>
    rw [Store.remove_cons, h item (by simp)]
    simp [ih (fun y hy => h y (List.mem_cons_of_mem item hy))]

theorem Store.saveUpdate_cons (item : JSObj) (rest : List JSObj) (data : JSObj) (id : JSVal) :
    Store.saveUpdate (item :: rest) data id =
      if getField item "id" = id then mergeFields item data :: rest
      else item :: Store.saveUpdate rest data id := rfl

theorem Store.saveUpdate_of_decomp (l1 l2 : List JSObj) (r data : JSObj) (id : JSVal)
    (h1 : ∀ x ∈ l1, getField x "id" ≠ id) (h2 : getField r "id" = id) :
    Store.saveUpdate (l1 ++ r :: l2) data id = l1 ++ mergeFields r data :: l2 := by
  induction l1 with
  | nil => simp [Store.saveUpdate_cons, h2]
  | cons x rest ih =>
    have hx := h1 x (by simp)
    rw [List.cons_append, Store.saveUpdate_cons, if_neg hx]
    simp [ih (fun y hy => h1 y (List.mem_cons_of_mem x hy))]

theorem Store.save_fresh (items : List JSObj) (data : JSObj) (t : Nat) :
    Store.save items data .undef t =
      (items ++ [setField data "id" (.num t)], [setField data "id" (.num t)]) := rfl

/-! ### Lemmas about the bulk category map of `_joinCategories` -/

theorem Model.mapGet_cons (k' v : JSVal) (rest : List (JSVal × JSVal)) (k : JSVal) :
    Model.mapGet ((k', v) :: rest) k = if k' = k then v else Model.mapGet rest k := rfl

theorem Model.mapSet_cons (k' v' : JSVal) (rest : List (JSVal × JSVal)) (k v : JSVal) :
    Model.mapSet ((k', v') :: rest) k v =
      if k' = k then (k, v) :: rest else (k', v') :: Model.mapSet rest k v := rfl

theorem Model.mapGet_mapSet (m : List (JSVal × JSVal)) (k v k' : JSVal) :
    Model.mapGet (Model.mapSet m k v) k' = if k = k' then v else Model.mapGet m k' := by
  induction m with
  | nil => by_cases h : k = k' <;> simp [Model.mapSet, Model.mapGet, h]
  | cons kv rest ih =>
    obtain ⟨k'', w⟩ := kv
    by_cases h2 : k'' = k
    · subst h2
      rw [Model.mapSet_cons, if_pos rfl, Model.mapGet_cons, Model.mapGet_cons]
      by_cases h3 : k'' = k' <;> simp [h3]
    · rw [Model.mapSet_cons, if_neg h2, Model.mapGet_cons, Model.mapGet_cons, ih]
      by_cases h3 : k'' = k'
      · subst h3
        have h4 : ¬ k = k'' := fun hh => h2 hh.symm
        simp [h4]
      · simp [h3]

theorem Model.mapGet_categoryFold_of_no_match (cats : List JSObj)
    (m : List (JSVal × JSVal)) (k : JSVal)
    (h : ∀ c ∈ cats, getField c "id" ≠ k) :
    Model.mapGet
      (cats.foldl (fun m c => Model.mapSet m (getField c "id") (getField c "name")) m) k =
      Model.mapGet m k := by
  induction cats generalizing m with
  | nil => rfl
  | cons c rest ih =>
    rw [List.foldl_cons, ih _ (fun x hx => h x (List.mem_cons_of_mem c hx)),
      Model.mapGet_mapSet, if_neg (h c (by simp))]

theorem Model.mapGet_buildCategoryMap_of_no_match (cats : List JSObj) (k : JSVal)
    (h : ∀ c ∈ cats, getField c "id" ≠ k) :
    Model.mapGet (Model.buildCategoryMap cats) k = .undef :=
  Model.mapGet_categoryFold_of_no_match cats [] k h

theorem Model.mapGet_categoryFold_eq_nameOfFirst (cats : List JSObj)
    (m : List (JSVal × JSVal)) (k : JSVal)
    (hnd : (cats.map (fun c => getField c "id")).Nodup) :
    Model.mapGet
      (cats.foldl (fun m c => Model.mapSet m (getField c "id") (getField c "name")) m) k =
      (match cats.find? (fun c => getField c "id" = k) with
       | some c => getField c "name"
       | none => Model.mapGet m k) := by
  induction cats generalizing m with
  | nil => rfl
  | cons c rest ih =>
    simp only [List.map_cons, List.nodup_cons] at hnd
    rw [List.foldl_cons]
    by_cases hc : getField c "id" = k
    · simp only [List.find?_cons, decide_eq_true hc]
      have hno : ∀ x ∈ rest, getField x "id" ≠ k := by
        intro x hx hcontra
        exact hnd.1 (hc ▸ hcontra ▸ List.mem_map_of_mem (fun c => getField c "id") hx)
      rw [Model.mapGet_categoryFold_of_no_match rest _ k hno, Model.mapGet_mapSet,
        if_pos hc]
    · simp only [List.find?_cons, decide_eq_false hc]
      rw [ih _ hnd.2]
      cases hf : rest.find? (fun c => getField c "id" = k) with
      | some c' => rfl
      | none => simp [Model.mapGet_mapSet, hc]

theorem Model.mapGet_buildCategoryMap (cats : List JSObj) (k : JSVal)
    (hnd : (cats.map (fun c => getField c "id")).Nodup) :
    Model.mapGet (Model.buildCategoryMap cats) k = Model.nameOfFirst cats k := by
  rw [Model.buildCategoryMap, Model.mapGet_categoryFold_eq_nameOfFirst cats [] k hnd]
  cases hf : cats.find? (fun c => getField c "id" = k) <;>
    simp [Model.nameOfFirst, hf, Model.mapGet]

/-! ### Lemmas about the category-resolution algorithm -/

theorem Model.getCategoryIdByName_tasks (db : DB) (v : JSVal) (t : Nat) :
    (Model.getCategoryIdByName db v t).1.tasks = db.tasks := by
  rw [Model.getCategoryIdByName]
  by_cases h : Store.find [("name", v)] db.categories = [] <;> simp [h]

theorem Model.getCategoryIdByName_spec (db : DB) (v : JSVal) (t : Nat) :
    (Store.find [("name", v)] db.categories = [] ∧
      (Model.getCategoryIdByName db v t).1.categories =
        db.categories ++ [[("name", v), ("id", .num t)]] ∧
      (Model.getCategoryIdByName db v t).2 = .num t) ∨
    (∃ c cs, Store.find [("name", v)] db.categories = c :: cs ∧
      (Model.getCategoryIdByName db v t).1 = db ∧
      (Model.getCategoryIdByName db v t).2 = getField c "id") := by
  rw [Model.getCategoryIdByName]
  cases hf : Store.find [("name", v)] db.categories with
  | nil =>
    refine Or.inl ⟨rfl, ?_, ?_⟩ <;>
      simp [Store.save_fresh, setField, getField]
  | cons c cs => exact Or.inr ⟨c, cs, rfl, by simp, by simp⟩

/-! ### Category-name uniqueness invariant -/

theorem Store.fieldsMatch_singleton (k : String) (v : JSVal) (item : JSObj) :
    Store.fieldsMatch [(k, v)] item = true ↔ getField item k = v := by
  rw [Store.fieldsMatch_iff]
  simp

theorem Model.catNamesNodup_getCategoryIdByName (db : DB) (v : JSVal) (t : Nat)
    (h : (Model.catNames db).Nodup) :
    (Model.catNames (Model.getCategoryIdByName db v t).1).Nodup := by
  rcases Model.getCategoryIdByName_spec db v t with ⟨hf, hcats, _⟩ | ⟨c, cs, _, hdb, _⟩
  · have hv : ∀ r ∈ db.categories, getField r "name" ≠ v := by
      intro r hr heq
      exact (Store.find_eq_nil_iff _ _).mp hf r hr
        ((Store.fieldsMatch_singleton _ _ _).mpr heq)
    rw [Model.catNames, hcats, List.map_append, List.nodup_append]
    refine ⟨h, by simp, ?_⟩
    intro a ha hb
    simp [getField] at hb
    obtain ⟨r, hr, hname⟩ := List.mem_map.mp ha
    exact hv r hr (by rw [hname, hb])
  · rw [hdb]
    exact h

theorem Model.catNamesNodup_removeCategory (db : DB) (cid : JSVal)
    (h : (Model.catNames db).Nodup) :
    ((Store.remove db.categories cid).map (fun c => getField c "name")).Nodup :=
  List.Nodup.sublist ((Store.remove_sublist db.categories cid).map _) h

theorem Model.catNamesNodup_create (db : DB) (title categoryName : Option String)
    (t1 t2 : Nat) (h : (Model.catNames db).Nodup) :
    (Model.catNames (Model.create db title categoryName t1 t2).1).Nodup := by
  simp only [Model.create, Model.catNames]
  exact Model.catNamesNodup_getCategoryIdByName db _ t1 h

theorem Model.catNamesNodup_update (db : DB) (id : JSVal) (data : JSObj) (t t2 : Nat)
    (h : (Model.catNames db).Nodup) :
    (Model.catNames (Model.update db id data t t2).1).Nodup := by
  simp only [Model.update]
  by_cases hc : hasField data "categoryName" = true
  · rw [if_pos hc]
    have h1 := Model.catNamesNodup_getCategoryIdByName db (getField data "categoryName") t h
    cases hf :
        Store.findById (Model.getCategoryIdByName db (getField data "categoryName") t).1.tasks
          id with
    | none => simpa [hf] using h1
    | some task =>
      simp only [hf]
      by_cases heq :
          (Model.getCategoryIdByName db (getField data "categoryName") t).2 =
            getField task "categoryId"
      · rw [if_pos heq]
        exact h1
      · rw [if_neg heq]
        by_cases hlen :
            (Store.find [("categoryId", getField task "categoryId")]
              (Model.getCategoryIdByName db (getField data "categoryName") t).1.tasks).length ≤ 1
        · rw [if_pos hlen]
          exact Model.catNamesNodup_removeCategory _ _ h1
        · rw [if_neg hlen]
          exact h1
  · rw [if_neg hc]
    exact h

theorem Model.catNamesNodup_runOp (db : DB) (op : Model.Op)
    (h : (Model.catNames db).Nodup) : (Model.catNames (Model.runOp db op)).Nodup := by
  cases op with
  | create title categoryName t1 t2 => exact Model.catNamesNodup_create db title categoryName t1 t2 h
  | update id data t t2 => exact Model.catNamesNodup_update db id data t t2 h

theorem Model.catNamesNodup_runOps (ops : List Model.Op) (db : DB)
    (h : (Model.catNames db).Nodup) : (Model.catNames (Model.runOps ops db)).Nodup := by
  induction ops generalizing db with
  | nil => exact h
  | cons op rest ih => exact ih _ (Model.catNamesNodup_runOp db op h)

/-! ### Claim C1 -/

/-- C1, counterexample: starting from empty stores, `create("A", "Work")`,
`create("B", "Work")` and then an update giving the second task the
category name `" Work "` leave two category records whose trimmed names
are both `"Work"` — `update` resolves the name without trimming it, and
the first category survives because the first task still references it.
So uniqueness per distinct trimmed name fails. -/
theorem c1_counterexample :
    (Model.runOps
      [ .create (some "A") (some "Work") 1 2,
        .create (some "B") (some "Work") 3 4,
        .update (.num 4) [("categoryName", .str " Work ")] 5 6 ]
      Model.emptyDB).categories.map Model.trimmedName = [some "Work", some "Work"] ∧
    ¬ ((Model.runOps
      [ .create (some "A") (some "Work") 1 2,
        .create (some "B") (some "Work") 3 4,
        .update (.num 4) [("categoryName", .str " Work ")] 5 6 ]
      Model.emptyDB).categories.map Model.trimmedName).Nodup := by
  constructor <;> decide

/-- C1 (amended): for every sequence of `Model.create` and `Model.update`
calls starting from empty stores, at most one category record exists per
distinct *exact* name after every call completes (`create` resolves the
trimmed name, `update` resolves the name exactly as supplied, and the
find-or-create resolution never duplicates an exact name); uniqueness per
*trimmed* name does not hold, because `update` does not trim. -/
theorem c1_name_uniqueness (ops : List Model.Op) :
    (Model.catNames (Model.runOps ops Model.emptyDB)).Nodup :=
  Model.catNamesNodup_runOps ops Model.emptyDB (by simp [Model.catNames, Model.emptyDB])

/-! ### Claim C4 -/

/-- C4, counterexample: with both stores empty, task id `1` matches no
stored task, yet `Model.read` with the scalar id raises (the `undefined`
task's `categoryId` is dereferenced) and so does `Model.remove` — the
claim that both complete without error fails. -/
theorem c4_counterexample :
    Model.readById Model.emptyDB (.num 1) = .error () ∧
    Model.remove Model.emptyDB (.num 1) = (Model.emptyDB, .error ()) := by
  constructor <;> decide

/-- C4 (amended): for every task id matching no stored task, `Model.read`
with that id as a scalar query and `Model.remove` with that id raise a
`TypeError` (the not-found sentinel is dereferenced); both leave the two
stores unchanged and never invoke the caller's callback. -/
theorem c4_missing_id_raises (db : DB) (q id : JSVal)
    (hq : (match jsParseInt q with
           | some n => Store.findById db.tasks (.num n)
           | none => none) = none)
    (hid : Store.findById db.tasks id = none) :
    Model.readById db q = .error () ∧ Model.remove db id = (db, .error ()) := by
  constructor
  · simp only [Model.readById]
    rw [hq]
  · simp only [Model.remove]
    rw [hid]

/-- C4, witness: concrete instance of `c4_missing_id_raises` on empty
stores with scalar query `"9"` and removal id `9`. -/
theorem c4_missing_id_raises_witness :
    Model.readById Model.emptyDB (.str "9") = .error () ∧
    Model.remove Model.emptyDB (.num 9) = (Model.emptyDB, .error ()) :=
  c4_missing_id_raises Model.emptyDB (.str "9") (.num 9) (by decide) (by decide)

/-! ### Claim C7 -/

/-- C7, counterexample: two `Store.save` calls without an id in the same
instant (`new Date().getTime()` returning `5` both times) assign both
records the id `5`: the second call's fresh id collides with an id already
in the collection, so "each call assigns an id distinct from every
existing record's id" fails. -/
theorem c7_counterexample :
    ((Store.save (Store.save [] [("x", .num 0)] .undef 5).1 [("y", .num 1)] .undef 5).1.map
      (fun r => getField r "id")) = [.num 5, .num 5] ∧
    ¬ (((Store.save (Store.save [] [("x", .num 0)] .undef 5).1 [("y", .num 1)] .undef 5).1.map
      (fun r => getField r "id")).Nodup) := by
  constructor <;> decide

/-- C7 (amended): a `Store.save` call without an id assigns the record the
current timestamp as id, appends it, and passes the one-element sequence
holding the new record to the callback; the new id is distinct from every
existing id provided the call's timestamp differs from every id already in
the collection (e.g. a strictly increasing clock) — with same-instant
saves the ids collide. -/
theorem c7_fresh_id_unique (items : List JSObj) (data : JSObj) (t : Nat)
    (h : ∀ r ∈ items, getField r "id" ≠ .num t) :
    (Store.save items data .undef t).1 = items ++ [setField data "id" (.num t)] ∧
    (Store.save items data .undef t).2 = [setField data "id" (.num t)] ∧
    getField (setField data "id" (.num t)) "id" = .num t ∧
    .num t ∉ items.map (fun r => getField r "id") := by
  refine ⟨rfl, rfl, getField_setField_self .., ?_⟩
  intro hmem
  obtain ⟨r, hr, hid⟩ := List.mem_map.mp hmem
  exact h r hr hid

/-- C7, witness: concrete instance of `c7_fresh_id_unique` on a
one-record collection with a later timestamp. -/
theorem c7_fresh_id_unique_witness :
    (Store.save [[("id", JSVal.num 1)]] [("y", .num 2)] .undef 7).1
      = [[("id", JSVal.num 1)], [("y", .num 2), ("id", .num 7)]] ∧
    JSVal.num 7 ∉ [[("id", JSVal.num 1)]].map (fun r => getField r "id") := by
  have h := c7_fresh_id_unique [[("id", JSVal.num 1)]] [("y", .num 2)] 7 (by decide)
  exact ⟨h.1, h.2.2.2⟩

/-! ### Claim C8 -/

/-- C8: `Model.removeAll` leaves both stores empty and hands the callback
an empty result, whatever the prior state; in particular two consecutive
calls both yield zero tasks and zero categories. -/
theorem c8_removeAll_clears (db : DB) :
    (Model.removeAll db).1.tasks = [] ∧ (Model.removeAll db).1.categories = [] ∧
    (Model.removeAll db).2 = [] ∧
    (Model.removeAll (Model.removeAll db).1).1.tasks = [] ∧
    (Model.removeAll (Model.removeAll db).1).1.categories = [] ∧
    (Model.removeAll (Model.removeAll db).1).2 = [] :=
  ⟨rfl, rfl, rfl, rfl, rfl, rfl⟩

/-! ### Claim C5 -/

theorem looseEq_refl (a : JSVal) : looseEq a a = true := by
  cases a <;> simp [looseEq]

/-- C5, counterexample: a task whose `categoryId` (99) matches no stored
category makes the scalar-id read shape raise (`category.name` is read off
the `undefined` category), so "every read call shape completes without
raising an error" fails. -/
theorem c5_counterexample :
    Model.readById ⟨[[("id", .num 1), ("categoryId", .num 99)]], []⟩ (.num 1)
      = .error () := by
  decide

/-- C5 (amended): for a task whose `categoryId` matches no stored
category, the no-query and object-predicate read shapes return the task
with `categoryName` set to `undefined` and complete without error, but the
scalar-id shape raises a `TypeError` on the missing category. -/
theorem c5_dangling_join (db : DB) (task : JSObj)
    (hmem : task ∈ db.tasks)
    (hdangling : ∀ c ∈ db.categories,
      looseEq (getField c "id") (getField task "categoryId") = false) :
    setField task "categoryName" .undef ∈ Model.readAll db ∧
    (∀ q : JSObj, Store.fieldsMatch q task = true →
      setField task "categoryName" .undef ∈ Model.readByQuery db q) ∧
    (∀ idq : JSVal, (match jsParseInt idq with
        | some n => Store.findById db.tasks (.num n)
        | none => none) = some task →
      Model.readById db idq = .error ()) := by
  have hne : ∀ c ∈ db.categories, getField c "id" ≠ getField task "categoryId" := by
    intro c hc heq
    have hl := hdangling c hc
    rw [heq, looseEq_refl] at hl
    simp at hl
  have hmap : Model.mapGet (Model.buildCategoryMap db.categories)
      (getField task "categoryId") = .undef :=
    Model.mapGet_buildCategoryMap_of_no_match _ _ hne
  refine ⟨?_, ?_, ?_⟩
  · have h : setField task "categoryName"
        (Model.mapGet (Model.buildCategoryMap db.categories) (getField task "categoryId"))
        ∈ Model.readAll db :=
      List.mem_map_of_mem _ hmem
    rw [hmap] at h
    exact h
  · intro q hq
    have hmemf : task ∈ Store.find q db.tasks := (Store.mem_find _ _ _).mpr ⟨hmem, hq⟩
    have h : setField task "categoryName"
        (Model.mapGet (Model.buildCategoryMap db.categories) (getField task "categoryId"))
        ∈ Model.readByQuery db q :=
      List.mem_map_of_mem _ hmemf
    rw [hmap] at h
    exact h
  · intro idq hidq
    simp only [Model.readById, hidq]
    rw [(Store.findById_eq_none_iff _ _).mpr hdangling]

/-- C5, witness: concrete instance of `c5_dangling_join` on a single task
with dangling `categoryId` 99 and an empty category store. -/
theorem c5_dangling_join_witness :
    setField [("id", JSVal.num 1), ("categoryId", JSVal.num 99)] "categoryName" .undef
      ∈ Model.readAll ⟨[[("id", JSVal.num 1), ("categoryId", JSVal.num 99)]], []⟩ ∧
    Model.readById ⟨[[("id", JSVal.num 1), ("categoryId", JSVal.num 99)]], []⟩ (.str "1")
      = .error () := by
  have h := c5_dangling_join ⟨[[("id", JSVal.num 1), ("categoryId", JSVal.num 99)]], []⟩
    [("id", JSVal.num 1), ("categoryId", JSVal.num 99)] (by decide) (by decide)
  exact ⟨h.1, h.2.2 (.str "1") (by decide)⟩

/-! ### Claim C6 -/

theorem List.find?_categoryId_of_nodup (cats : List JSObj) (c : JSObj) (k : JSVal)
    (hnd : (cats.map (fun c => getField c "id")).Nodup) (hc : c ∈ cats)
    (hk : getField c "id" = k) :
    cats.find? (fun x => getField x "id" = k) = some c := by
  induction cats with
  | nil => simp at hc
  | cons c0 rest ih =>
    simp only [List.map_cons, List.nodup_cons] at hnd
    rcases List.mem_cons.mp hc with rfl | hc'
    · simp only [List.find?_cons, decide_eq_true hk]
    · have h0 : getField c0 "id" ≠ k := by
        intro h0
        exact hnd.1 (h0 ▸ hk ▸ List.mem_map_of_mem _ hc')
      simp only [List.find?_cons, decide_eq_false h0]
      exact ih hnd.2 hc'

/-- C6: for every object query `q`, `Model.read` with `q` delivers exactly
the tasks all of whose fields strictly equal the corresponding fields of
`q`, in store order, each spread with a `categoryName` property holding
the name of the category whose id equals the task's `categoryId` (the bulk
id-to-name map agrees with that single-category lookup when category ids
are distinct, and the joined name is the matching category's stored
name). -/
theorem c6_object_query_join (db : DB) (q : JSObj)
    (hids : (db.categories.map (fun c => getField c "id")).Nodup) :
    Model.readByQuery db q =
      (db.tasks.filter (Store.fieldsMatch q)).map
        (fun task => setField task "categoryName"
          (Model.nameOfFirst db.categories (getField task "categoryId"))) ∧
    (∀ task : JSObj, Store.fieldsMatch q task = true ↔
      ∀ kv ∈ q, getField task kv.1 = kv.2) ∧
    (∀ task c : JSObj, task ∈ db.tasks → c ∈ db.categories →
      getField c "id" = getField task "categoryId" →
      Model.nameOfFirst db.categories (getField task "categoryId") = getField c "name") := by
  refine ⟨?_, fun task => Store.fieldsMatch_iff q task, ?_⟩
  · simp only [Model.readByQuery, Model.joinCategories, Store.find]
    exact List.map_congr_left
      (fun task _ => by rw [Model.mapGet_buildCategoryMap _ _ hids])
  · intro task c htask hcat hid
    simp only [Model.nameOfFirst,
      List.find?_categoryId_of_nodup db.categories c _ hids hcat hid]

/-- C6, witness: concrete instance of `c6_object_query_join` — a query on
`completed` returns the matching task joined with its category's name. -/
theorem c6_object_query_join_witness :
    Model.readByQuery
      ⟨[[("id", JSVal.num 2), ("categoryId", JSVal.num 1), ("completed", JSVal.bool false)]],
       [[("name", JSVal.str "W"), ("id", JSVal.num 1)]]⟩
      [("completed", JSVal.bool false)] =
      [[("id", JSVal.num 2), ("categoryId", JSVal.num 1), ("completed", JSVal.bool false),
        ("categoryName", JSVal.str "W")]] := by
  have h := c6_object_query_join
    ⟨[[("id", JSVal.num 2), ("categoryId", JSVal.num 1), ("completed", JSVal.bool false)]],
     [[("name", JSVal.str "W"), ("id", JSVal.num 1)]]⟩
    [("completed", JSVal.bool false)] (by decide)
  rw [h.1]
  decide

/-! ### Further infrastructure: save with an id, resolution equations,
unique-match lookups -/

theorem setField_of_not_has (obj : JSObj) (k : String) (v : JSVal)
    (h : hasField obj k = false) : setField obj k v = obj ++ [(k, v)] := by
  induction obj with
  | nil => rfl
  | cons kv rest ih =>
    obtain ⟨k', w⟩ := kv
    have h1 : (decide (k' = k) || hasField rest k) = false := by simpa [hasField] using h
    rw [Bool.or_eq_false_iff] at h1
    rw [setField_cons, if_neg (of_decide_eq_false h1.1), ih h1.2, List.cons_append]

theorem hasField_false_of_removeField (data : JSObj) (key k : String)
    (h : hasField data k = false) : hasField (removeField data key) k = false := by
  cases hb : hasField (removeField data key) k with
  | false => rfl
  | true =>
    rw [hasField_iff_mem_keys] at hb
    rw [← Bool.not_eq_true, hasField_iff_mem_keys] at h
    exact absurd ((keys_removeField_sublist data key).mem hb) h

theorem keys_removeField_nodup (data : JSObj) (key : String)
    (h : (data.map Prod.fst).Nodup) : ((removeField data key).map Prod.fst).Nodup :=
  List.Nodup.sublist (keys_removeField_sublist data key) h

theorem Store.save_with_id (items : List JSObj) (data : JSObj) (id : JSVal) (t : Nat)
    (h : jsTruthy id = true) :
    Store.save items data id t =
      (Store.saveUpdate items data id, Store.saveUpdate items data id) := by
  simp [Store.save, h]

theorem Model.getCategoryIdByName_of_found (db : DB) (v : JSVal) (t : Nat)
    (c : JSObj) (cs : List JSObj)
    (hf : Store.find [("name", v)] db.categories = c :: cs) :
    Model.getCategoryIdByName db v t = (db, getField c "id") := by
  simp [Model.getCategoryIdByName, hf]

theorem Model.getCategoryIdByName_of_missing (db : DB) (v : JSVal) (t : Nat)
    (hf : Store.find [("name", v)] db.categories = []) :
    Model.getCategoryIdByName db v t =
      ({ db with categories := db.categories ++ [[("name", v), ("id", .num t)]] },
        .num t) := by
  simp [Model.getCategoryIdByName, hf, Store.save_fresh, setField, getField]

theorem Store.findById_eq_some_of_unique (items : List JSObj) (id : JSVal) (r0 : JSObj)
    (hr0 : r0 ∈ items) (hm : looseEq (getField r0 "id") id = true)
    (huniq : ∀ r ∈ items, r ≠ r0 → looseEq (getField r "id") id = false) :
    Store.findById items id = some r0 := by
  induction items with
  | nil => simp at hr0
  | cons item rest ih =>
    by_cases he : item = r0
    · subst he
      rw [Store.findById_cons, if_pos hm]
    · rw [Store.findById_cons, huniq item (by simp) he]
      have hr0' : r0 ∈ rest := by
        rcases List.mem_cons.mp hr0 with h | h
        · exact absurd h.symm he
        · exact h
      simpa using ih hr0' (fun r hr hne => huniq r (List.mem_cons_of_mem item hr) hne)

theorem Store.remove_unique_match (items : List JSObj) (id : JSVal) (r0 : JSObj)
    (hr0 : r0 ∈ items) (hm : looseEq (getField r0 "id") id = true)
    (huniq : ∀ r ∈ items, r ≠ r0 → looseEq (getField r "id") id = false)
    (hnd : items.Nodup) :
    r0 ∉ Store.remove items id ∧
      ∀ r ∈ items, r ≠ r0 → r ∈ Store.remove items id := by
  induction items with
  | nil => simp at hr0
  | cons item rest ih =>
    rw [List.nodup_cons] at hnd
    by_cases he : item = r0
    · subst he
      rw [Store.remove_cons, if_pos hm]
      refine ⟨hnd.1, ?_⟩
      intro r hr hne
      rcases List.mem_cons.mp hr with h | h
      · exact absurd h hne
      · exact h
    · have hr0' : r0 ∈ rest := by
        rcases List.mem_cons.mp hr0 with h | h
        · exact absurd h.symm he
        · exact h
      have hih := ih hr0' (fun r hr hne => huniq r (List.mem_cons_of_mem item hr) hne) hnd.2
      rw [Store.remove_cons, huniq item (by simp) he]
      simp only [Bool.false_eq_true, if_false]
      refine ⟨?_, ?_⟩
      · intro hc
        rcases List.mem_cons.mp hc with h | h
        · exact he h.symm
        · exact hih.1 h
      · intro r hr hne
        rcases List.mem_cons.mp hr with h | h
        · exact h ▸ List.mem_cons_self item _
        · exact List.mem_cons_of_mem item (hih.2 r h hne)

/-! ### Claim C9 -/

/-- C9: `Store.find` matches fields with strict (`!==`) equality while
`Store.findById` and `Store.remove` match ids with loose (`==`) equality:
in a store whose records carry distinct numeric ids, `findById` with a
string form of `n` (a string whose numeric value is `n`) returns the
record with id `n`, `remove` with that string deletes exactly that record,
but `find` with the predicate `{id: that string}` returns the empty
sequence. -/
theorem c9_id_equality_discipline (items : List JSObj) (r0 : JSObj) (n : Nat) (s : String)
    (hnums : ∀ r ∈ items, (getField r "id").isNum = true)
    (hnd : (items.map (fun r => getField r "id")).Nodup)
    (hr0 : r0 ∈ items) (hid : getField r0 "id" = .num n)
    (hs : jsStrToNumber s = some n) :
    Store.findById items (.str s) = some r0 ∧
    r0 ∉ Store.remove items (.str s) ∧
    (∀ r ∈ items, r ≠ r0 → r ∈ Store.remove items (.str s)) ∧
    Store.find [("id", .str s)] items = [] := by
  have hm : looseEq (getField r0 "id") (.str s) = true := by
    rw [hid]
    simp [looseEq, hs]
  have huniq : ∀ r ∈ items, r ≠ r0 → looseEq (getField r "id") (.str s) = false := by
    intro r hr hne
    obtain ⟨m, hm'⟩ : ∃ m, getField r "id" = .num m := by
      have := hnums r hr
      cases hq : getField r "id" <;> rw [hq] at this <;>
        first
          | exact ⟨_, rfl⟩
          | simp [JSVal.isNum] at this
    have hmn : m ≠ n := by
      intro he
      exact hne (List.inj_on_of_nodup_map hnd hr hr0 (by rw [hm', hid, he]))
    rw [hm']
    simp [looseEq, hs, hmn]
  have hitems : items.Nodup := hnd.of_map
  obtain ⟨h1, h2⟩ := Store.remove_unique_match items (.str s) r0 hr0 hm huniq hitems
  refine ⟨Store.findById_eq_some_of_unique items (.str s) r0 hr0 hm huniq, h1, h2, ?_⟩
  rw [Store.find_eq_nil_iff]
  intro r hr hmatch
  have hstr := (Store.fieldsMatch_singleton _ _ _).mp hmatch
  have := hnums r hr
  rw [hstr] at this
  simp [JSVal.isNum] at this

/-- C9, witness: concrete instance of `c9_id_equality_discipline` on a
two-record store and the string `"7"`. -/
theorem c9_id_equality_discipline_witness :
    Store.findById [[("id", JSVal.num 3)], [("id", JSVal.num 7)]] (.str "7")
      = some [("id", JSVal.num 7)] ∧
    Store.remove [[("id", JSVal.num 3)], [("id", JSVal.num 7)]] (.str "7")
      = [[("id", JSVal.num 3)]] ∧
    Store.find [("id", JSVal.str "7")] [[("id", JSVal.num 3)], [("id", JSVal.num 7)]]
      = [] := by
  have h := c9_id_equality_discipline [[("id", JSVal.num 3)], [("id", JSVal.num 7)]]
    [("id", JSVal.num 7)] 7 "7" (by decide) (by decide) (by decide) (by decide) (by decide)
  exact ⟨h.1, by decide, h.2.2.2⟩

/-! ### Claim C3 -/

theorem ne_of_looseEq_false (x y : JSVal) (h : looseEq x y = false) : x ≠ y := by
  intro he
  rw [he, looseEq_refl] at h
  simp at h

/-- C3, counterexample: when `data` itself carries a `categoryId` field,
the stored task's `categoryId` does not equal the id produced by the
category-resolution algorithm — here the resolution of `"W"` yields id `1`
(the category is reused), the task's category does not change, and the
explicit `categoryId: 999` of `data` is merged verbatim, so the stored
task ends with `categoryId` 999. -/
theorem c3_counterexample :
    getField (((Model.update
        ⟨[[("id", .num 1), ("title", .str "a"), ("categoryId", .num 1),
           ("completed", .bool false)]],
          [[("name", .str "W"), ("id", .num 1)]]⟩
        (.num 1) [("categoryName", .str "W"), ("categoryId", .num 999)] 7 8).1).tasks.headD
        []) "categoryId" = .num 999 ∧
    (Model.getCategoryIdByName
        ⟨[[("id", .num 1), ("title", .str "a"), ("categoryId", .num 1),
           ("completed", .bool false)]],
          [[("name", .str "W"), ("id", .num 1)]]⟩ (.str "W") 7).2 = .num 1 := by
  constructor <;> decide

/-- C3 (amended): for every existing task (id `n`, nonzero) and every data
object that contains a `categoryName` field but no `categoryId` field of
its own, after `Model.update` the stored task record has no `categoryName`
field, its `categoryId` equals the id produced by the category-resolution
algorithm for the supplied (untrimmed) name, and every other field of
`data` is merged into the task; all other tasks are untouched.  (Without
the no-`categoryId` proviso the claim fails, see the counterexample.) -/
theorem c3_update_resolves_category (db : DB) (n : Nat) (data task : JSObj) (t t2 : Nat)
    (hn : n ≠ 0)
    (hfind : Store.findById db.tasks (.num n) = some task)
    (hidtask : getField task "id" = .num n)
    (hcn : hasField data "categoryName" = true)
    (hnocid : hasField data "categoryId" = false)
    (hkeys : (data.map Prod.fst).Nodup)
    (htaskcn : hasField task "categoryName" = false) :
    ∃ l1 l2 newTask,
      db.tasks = l1 ++ task :: l2 ∧
      (Model.update db (.num n) data t t2).1.tasks = l1 ++ newTask :: l2 ∧
      hasField newTask "categoryName" = false ∧
      getField newTask "categoryId" =
        (Model.getCategoryIdByName db (getField data "categoryName") t).2 ∧
      (∀ kv ∈ data, kv.1 ≠ "categoryName" → getField newTask kv.1 = kv.2) := by
  obtain ⟨hml, l1, l2, hsplit, hl1⟩ := Store.findById_decomp db.tasks (.num n) task hfind
  have hl1s : ∀ x ∈ l1, getField x "id" ≠ .num n :=
    fun x hx => ne_of_looseEq_false _ _ (hl1 x hx)
  have hrestcn : hasField (removeField data "categoryName") "categoryName" = false :=
    hasField_removeField_self data _
  have hrestcid : hasField (removeField data "categoryName") "categoryId" = false :=
    hasField_false_of_removeField data _ _ hnocid
  have hrestkeys : ((removeField data "categoryName").map Prod.fst).Nodup :=
    keys_removeField_nodup data _ hkeys
  have htasks := Model.getCategoryIdByName_tasks db (getField data "categoryName") t
  have htruthy : jsTruthy (.num n) = true := by simp [jsTruthy, hn]
  have hsu : ∀ d : JSObj, Store.saveUpdate db.tasks d (.num n) =
      l1 ++ mergeFields task d :: l2 := by
    intro d
    rw [hsplit, Store.saveUpdate_of_decomp l1 l2 task d _ hl1s hidtask]
  simp only [Model.update]
  rw [if_pos hcn]
  simp only [htasks, hfind]
  by_cases hbr :
      (Model.getCategoryIdByName db (getField data "categoryName") t).2 =
        getField task "categoryId"
  · rw [if_pos hbr]
    rw [Store.save_with_id _ _ _ _ htruthy]
    dsimp only
    rw [hsu]
    refine ⟨l1, l2, mergeFields task (removeField data "categoryName"), hsplit, rfl, ?_, ?_, ?_⟩
    · simp [hasField_mergeFields, htaskcn, hrestcn]
    · rw [getField_mergeFields_of_not_has _ _ _ hrestcid]
      exact hbr.symm
    · intro kv hkv hne
      exact getField_mergeFields_of_mem task _ kv.1 kv.2 hrestkeys
        ((mem_removeField data _ kv).mpr ⟨hkv, hne⟩)
  · rw [if_neg hbr]
    have hrest2 : setField (removeField data "categoryName") "categoryId"
        (Model.getCategoryIdByName db (getField data "categoryName") t).2 =
        removeField data "categoryName" ++
          [("categoryId", (Model.getCategoryIdByName db (getField data "categoryName") t).2)] :=
      setField_of_not_has _ _ _ hrestcid
    have hrest2cn : hasField (setField (removeField data "categoryName") "categoryId"
        (Model.getCategoryIdByName db (getField data "categoryName") t).2)
        "categoryName" = false := by
      rw [hasField_setField, hrestcn]
      simp
    have hrest2keys : ((setField (removeField data "categoryName") "categoryId"
        (Model.getCategoryIdByName db (getField data "categoryName") t).2).map
          Prod.fst).Nodup := by
      rw [hrest2, List.map_append, List.nodup_append]
      refine ⟨hrestkeys, by simp, ?_⟩
      intro a ha hb
      simp at hb
      subst hb
      rw [← Bool.not_eq_true, hasField_iff_mem_keys] at hrestcid
      exact hrestcid ha
    have hconc2 : hasField (mergeFields task (setField (removeField data "categoryName")
        "categoryId" (Model.getCategoryIdByName db (getField data "categoryName") t).2))
        "categoryName" = false := by
      simp [hasField_mergeFields, htaskcn, hrest2cn]
    have hconc3 : getField (mergeFields task (setField (removeField data "categoryName")
        "categoryId" (Model.getCategoryIdByName db (getField data "categoryName") t).2))
        "categoryId" =
        (Model.getCategoryIdByName db (getField data "categoryName") t).2 :=
      getField_mergeFields_of_mem task _ _ _ hrest2keys
        (by rw [hrest2]
            exact List.mem_append_right _ (by simp))
    have hconc4 : ∀ kv ∈ data, kv.1 ≠ "categoryName" →
        getField (mergeFields task (setField (removeField data "categoryName")
          "categoryId" (Model.getCategoryIdByName db (getField data "categoryName") t).2))
          kv.1 = kv.2 := by
      intro kv hkv hne
      exact getField_mergeFields_of_mem task _ kv.1 kv.2 hrest2keys
        (by rw [hrest2]
            exact List.mem_append_left _ ((mem_removeField data _ kv).mpr ⟨hkv, hne⟩))
    by_cases hlen :
        (Store.find [("categoryId", getField task "categoryId")] db.tasks).length ≤ 1
    · rw [if_pos hlen]
      rw [Store.save_with_id _ _ _ _ htruthy]
      dsimp only
      rw [hsu]
      exact ⟨l1, l2, _, hsplit, rfl, hconc2, hconc3, hconc4⟩
    · rw [if_neg hlen]
      rw [Store.save_with_id _ _ _ _ htruthy]
      dsimp only
      rw [htasks, hsu]
      exact ⟨l1, l2, _, hsplit, rfl, hconc2, hconc3, hconc4⟩

/-- C3, witness: concrete instance of `c3_update_resolves_category` — a
task in category 1 is updated with a new category name `"X"` and a new
title; the stored record carries the resolved category id and the merged
title, and no `categoryName` field. -/
theorem c3_update_resolves_category_witness :
    ∃ l1 l2 newTask,
      (⟨[[("id", JSVal.num 1), ("categoryId", JSVal.num 1)]],
         [[("name", JSVal.str "W"), ("id", JSVal.num 1)]]⟩ : DB).tasks =
          l1 ++ [("id", JSVal.num 1), ("categoryId", JSVal.num 1)] :: l2 ∧
      (Model.update ⟨[[("id", JSVal.num 1), ("categoryId", JSVal.num 1)]],
         [[("name", JSVal.str "W"), ("id", JSVal.num 1)]]⟩ (.num 1)
         [("categoryName", JSVal.str "X"), ("title", JSVal.str "b")] 7 8).1.tasks =
          l1 ++ newTask :: l2 ∧
      hasField newTask "categoryName" = false ∧
      getField newTask "categoryId" =
        (Model.getCategoryIdByName ⟨[[("id", JSVal.num 1), ("categoryId", JSVal.num 1)]],
           [[("name", JSVal.str "W"), ("id", JSVal.num 1)]]⟩ (JSVal.str "X") 7).2 ∧
      (∀ kv ∈ [("categoryName", JSVal.str "X"), ("title", JSVal.str "b")],
        kv.1 ≠ "categoryName" → getField newTask kv.1 = kv.2) :=
  c3_update_resolves_category
    ⟨[[("id", JSVal.num 1), ("categoryId", JSVal.num 1)]],
     [[("name", JSVal.str "W"), ("id", JSVal.num 1)]]⟩ 1
    [("categoryName", JSVal.str "X"), ("title", JSVal.str "b")]
    [("id", JSVal.num 1), ("categoryId", JSVal.num 1)] 7 8
    (by decide) (by decide) (by decide) (by decide) (by decide) (by decide) (by decide)

/-! ### Claim C10 -/

/-- C10, counterexample: when the update data carries, besides the
unchanged `categoryName`, an explicit `categoryId` field, that field is
merged verbatim, so the task's `categoryId` does NOT stay unchanged —
here it goes from 1 to 42 although the category name was unchanged. -/
theorem c10_counterexample :
    getField (((Model.update ⟨[[("id", .num 1), ("categoryId", .num 1)]],
        [[("name", .str "W"), ("id", .num 1)]]⟩
      (.num 1) [("categoryName", .str "W"), ("categoryId", .num 42)] 7 8).1).tasks.headD [])
      "categoryId" = .num 42 := by
  decide

/-- C10 (amended): for every existing task whose `categoryId` equals the
id of the first category matching the supplied name exactly, `Model.update`
with data containing that `categoryName` (and no `categoryId` field of its
own) leaves the category store unchanged — no category created, none
deleted — and leaves the task's `categoryId` unchanged; the remaining
fields of data are merged into the task and every field absent from data
keeps its value.  (Without the no-`categoryId` proviso the claim fails,
see the counterexample.) -/
theorem c10_same_name_reassignment (db : DB) (n : Nat) (data task c : JSObj)
    (cs : List JSObj) (t t2 : Nat)
    (hn : n ≠ 0)
    (hfind : Store.findById db.tasks (.num n) = some task)
    (hidtask : getField task "id" = .num n)
    (hcn : hasField data "categoryName" = true)
    (hnocid : hasField data "categoryId" = false)
    (hkeys : (data.map Prod.fst).Nodup)
    (hfirst : Store.find [("name", getField data "categoryName")] db.categories = c :: cs)
    (hcid : getField c "id" = getField task "categoryId") :
    (Model.update db (.num n) data t t2).1.categories = db.categories ∧
    ∃ l1 l2 newTask,
      db.tasks = l1 ++ task :: l2 ∧
      (Model.update db (.num n) data t t2).1.tasks = l1 ++ newTask :: l2 ∧
      getField newTask "categoryId" = getField task "categoryId" ∧
      (∀ kv ∈ data, kv.1 ≠ "categoryName" → getField newTask kv.1 = kv.2) ∧
      (∀ k : String, hasField data k = false → getField newTask k = getField task k) := by
  obtain ⟨hml, l1, l2, hsplit, hl1⟩ := Store.findById_decomp db.tasks (.num n) task hfind
  have hl1s : ∀ x ∈ l1, getField x "id" ≠ .num n :=
    fun x hx => ne_of_looseEq_false _ _ (hl1 x hx)
  have hrestcid : hasField (removeField data "categoryName") "categoryId" = false :=
    hasField_false_of_removeField data _ _ hnocid
  have hrestkeys : ((removeField data "categoryName").map Prod.fst).Nodup :=
    keys_removeField_nodup data _ hkeys
  have hres := Model.getCategoryIdByName_of_found db (getField data "categoryName") t c cs hfirst
  have htruthy : jsTruthy (.num n) = true := by simp [jsTruthy, hn]
  have hsu : ∀ d : JSObj, Store.saveUpdate db.tasks d (.num n) =
      l1 ++ mergeFields task d :: l2 := by
    intro d
    rw [hsplit, Store.saveUpdate_of_decomp l1 l2 task d _ hl1s hidtask]
  simp only [Model.update]
  rw [if_pos hcn]
  rw [hres]
  dsimp only
  simp only [hfind]
  rw [if_pos hcid]
  rw [Store.save_with_id _ _ _ _ htruthy]
  dsimp only
  rw [hsu]
  refine ⟨rfl, l1, l2, mergeFields task (removeField data "categoryName"), hsplit, rfl,
    ?_, ?_, ?_⟩
  · rw [getField_mergeFields_of_not_has _ _ _ hrestcid]
  · intro kv hkv hne
    exact getField_mergeFields_of_mem task _ kv.1 kv.2 hrestkeys
      ((mem_removeField data _ kv).mpr ⟨hkv, hne⟩)
  · intro k hk
    exact getField_mergeFields_of_not_has task _ k (hasField_false_of_removeField data _ _ hk)

/-- C10, witness: concrete instance of `c10_same_name_reassignment` — an
update re-supplying the task's current category name `"W"` plus a new
title leaves the single category untouched and only merges the title. -/
theorem c10_same_name_reassignment_witness :
    (Model.update ⟨[[("id", JSVal.num 1), ("categoryId", JSVal.num 1)]],
       [[("name", JSVal.str "W"), ("id", JSVal.num 1)]]⟩ (.num 1)
       [("categoryName", JSVal.str "W"), ("title", JSVal.str "b")] 7 8).1.categories =
      [[("name", JSVal.str "W"), ("id", JSVal.num 1)]] ∧
    ∃ l1 l2 newTask,
      ([[("id", JSVal.num 1), ("categoryId", JSVal.num 1)]] : List JSObj) =
          l1 ++ [("id", JSVal.num 1), ("categoryId", JSVal.num 1)] :: l2 ∧
      (Model.update ⟨[[("id", JSVal.num 1), ("categoryId", JSVal.num 1)]],
         [[("name", JSVal.str "W"), ("id", JSVal.num 1)]]⟩ (.num 1)
         [("categoryName", JSVal.str "W"), ("title", JSVal.str "b")] 7 8).1.tasks =
          l1 ++ newTask :: l2 ∧
      getField newTask "categoryId" =
        getField [("id", JSVal.num 1), ("categoryId", JSVal.num 1)] "categoryId" ∧
      (∀ kv ∈ [("categoryName", JSVal.str "W"), ("title", JSVal.str "b")],
        kv.1 ≠ "categoryName" → getField newTask kv.1 = kv.2) ∧
      (∀ k : String, hasField [("categoryName", JSVal.str "W"), ("title", JSVal.str "b")] k
          = false →
        getField newTask k = getField [("id", JSVal.num 1), ("categoryId", JSVal.num 1)] k) :=
  c10_same_name_reassignment
    ⟨[[("id", JSVal.num 1), ("categoryId", JSVal.num 1)]],
     [[("name", JSVal.str "W"), ("id", JSVal.num 1)]]⟩ 1
    [("categoryName", JSVal.str "W"), ("title", JSVal.str "b")]
    [("id", JSVal.num 1), ("categoryId", JSVal.num 1)]
    [("name", JSVal.str "W"), ("id", JSVal.num 1)] [] 7 8
    (by decide) (by decide) (by decide) (by decide) (by decide) (by decide) (by decide)
    (by decide)

/-! ### Claim C2 -/

theorem Model.remove_deletes_orphan (db : DB) (idv : JSVal) (task C : JSObj) (cid : Nat)
    (hfind : Store.findById db.tasks idv = some task)
    (hcidtask : getField task "categoryId" = .num cid)
    (hrefs : (Store.find [("categoryId", .num cid)] db.tasks).length = 1)
    (hC : C ∈ db.categories)
    (hCm : looseEq (getField C "id") (.num cid) = true)
    (honly : ∀ c ∈ db.categories, looseEq (getField c "id") (.num cid) = true → c = C)
    (hnd : db.categories.Nodup) :
    C ∉ (Model.remove db idv).1.categories := by
  have huniq : ∀ r ∈ db.categories, r ≠ C →
      looseEq (getField r "id") (.num cid) = false := by
    intro r hr hne
    cases hb : looseEq (getField r "id") (.num cid) with
    | false => rfl
    | true => exact absurd (honly r hr hb) hne
  have hrem := Store.remove_unique_match db.categories (.num cid) C hC hCm huniq hnd
  simp only [Model.remove, hfind, hcidtask]
  rw [if_pos hrefs.le]
  exact hrem.1

theorem Model.update_deletes_orphan (db : DB) (data : JSObj) (t t2 : Nat) (idv : JSVal)
    (cid : Nat) (task C : JSObj)
    (hcn : hasField data "categoryName" = true)
    (hname : getField C "name" ≠ getField data "categoryName")
    (hC : C ∈ db.categories)
    (hCm : looseEq (getField C "id") (.num cid) = true)
    (honly : ∀ c ∈ db.categories, looseEq (getField c "id") (.num cid) = true → c = C)
    (hnd : db.categories.Nodup)
    (ht : t ≠ cid)
    (hfind : Store.findById db.tasks idv = some task)
    (hcidtask : getField task "categoryId" = .num cid)
    (hrefs : (Store.find [("categoryId", .num cid)] db.tasks).length = 1) :
    C ∉ (Model.update db idv data t t2).1.categories := by
  have huniq : ∀ r ∈ db.categories, r ≠ C →
      looseEq (getField r "id") (.num cid) = false := by
    intro r hr hne
    cases hb : looseEq (getField r "id") (.num cid) with
    | false => rfl
    | true => exact absurd (honly r hr hb) hne
  have htasks := Model.getCategoryIdByName_tasks db (getField data "categoryName") t
  simp only [Model.update]
  rw [if_pos hcn]
  simp only [htasks, hfind, hcidtask]
  cases hf : Store.find [("name", getField data "categoryName")] db.categories with
  | cons c' cs' =>
    have hres := Model.getCategoryIdByName_of_found db (getField data "categoryName") t c' cs' hf
    rw [hres]
    dsimp only
    have hc'mem : c' ∈ db.categories ∧ Store.fieldsMatch
        [("name", getField data "categoryName")] c' = true :=
      (Store.mem_find _ _ _).mp (hf ▸ List.mem_cons_self c' cs')
    have hc'name : getField c' "name" = getField data "categoryName" :=
      (Store.fieldsMatch_singleton _ _ _).mp hc'mem.2
    have hc'ne : c' ≠ C := fun he => hname (he ▸ hc'name)
    have hc'id : getField c' "id" ≠ .num cid :=
      ne_of_looseEq_false _ _ (huniq c' hc'mem.1 hc'ne)
    rw [if_neg hc'id, if_pos hrefs.le]
    exact (Store.remove_unique_match db.categories (.num cid) C hC hCm huniq hnd).1
  | nil =>
    have hres := Model.getCategoryIdByName_of_missing db (getField data "categoryName") t hf
    rw [hres]
    dsimp only
    rw [if_neg (by simp [ht]), if_pos hrefs.le]
    have hnewid : getField [("name", getField data "categoryName"), ("id", JSVal.num t)]
        "id" = .num t := by
      simp [getField]
    have hnewname : getField [("name", getField data "categoryName"), ("id", JSVal.num t)]
        "name" = getField data "categoryName" := by
      simp [getField]
    have hnotmem : [("name", getField data "categoryName"), ("id", JSVal.num t)]
        ∉ db.categories := by
      intro hmem
      have : ([("name", getField data "categoryName"), ("id", JSVal.num t)] : JSObj)
          ∈ Store.find [("name", getField data "categoryName")] db.categories :=
        (Store.mem_find _ _ _).mpr
          ⟨hmem, (Store.fieldsMatch_singleton _ _ _).mpr hnewname⟩
      rw [hf] at this
      simp at this
    have hCext : C ∈ db.categories ++
        [[("name", getField data "categoryName"), ("id", JSVal.num t)]] :=
      List.mem_append_left _ hC
    have huniqext : ∀ r ∈ db.categories ++
        [[("name", getField data "categoryName"), ("id", JSVal.num t)]], r ≠ C →
        looseEq (getField r "id") (.num cid) = false := by
      intro r hr hne
      rcases List.mem_append.mp hr with h | h
      · exact huniq r h hne
      · have : r = [("name", getField data "categoryName"), ("id", JSVal.num t)] := by
          simpa using h
        rw [this, hnewid]
        simp [looseEq, ht]
    have hndext : (db.categories ++
        [[("name", getField data "categoryName"), ("id", JSVal.num t)]]).Nodup := by
      rw [List.nodup_append]
      refine ⟨hnd, by simp, ?_⟩
      intro a ha hb
      have : a = [("name", getField data "categoryName"), ("id", JSVal.num t)] := by
        simpa using hb
      exact hnotmem (this ▸ ha)
    exact (Store.remove_unique_match _ (.num cid) C hCext
      (by exact hCm) huniqext hndext).1

theorem Model.remove_keeps_referenced (db : DB) (idv : JSVal) (task C : JSObj) (cid : Nat)
    (hfind : Store.findById db.tasks idv = some task)
    (hcidtask : getField task "categoryId" = .num cid)
    (hrefs : 2 ≤ (Store.find [("categoryId", .num cid)] db.tasks).length)
    (hC : C ∈ db.categories) :
    C ∈ (Model.remove db idv).1.categories := by
  simp only [Model.remove, hfind, hcidtask]
  rw [if_neg (by omega)]
  exact hC

theorem Model.update_keeps_referenced (db : DB) (data : JSObj) (t t2 : Nat) (idv : JSVal)
    (cid : Nat) (task C : JSObj)
    (hcn : hasField data "categoryName" = true)
    (hfind : Store.findById db.tasks idv = some task)
    (hcidtask : getField task "categoryId" = .num cid)
    (hrefs : 2 ≤ (Store.find [("categoryId", .num cid)] db.tasks).length)
    (hC : C ∈ db.categories) :
    C ∈ (Model.update db idv data t t2).1.categories := by
  have htasks := Model.getCategoryIdByName_tasks db (getField data "categoryName") t
  have hCres : C ∈ (Model.getCategoryIdByName db (getField data "categoryName") t).1.categories := by
    rcases Model.getCategoryIdByName_spec db (getField data "categoryName") t with
      ⟨_, hcats, _⟩ | ⟨c, cs, _, hdb, _⟩
    · rw [hcats]
      exact List.mem_append_left _ hC
    · rw [hdb]
      exact hC
  simp only [Model.update]
  rw [if_pos hcn]
  simp only [htasks, hfind, hcidtask]
  by_cases hbr :
      (Model.getCategoryIdByName db (getField data "categoryName") t).2 = .num cid
  · rw [if_pos hbr]
    exact hCres
  · rw [if_neg hbr, if_neg (by omega)]
    exact hCres

/-- C2: orphan-category cleanup.  (1) If exactly one task references
category C (by strict `categoryId` equality) and that task is removed, C
no longer appears in the category store; (2) likewise when that task is
reassigned by an update whose new category name differs from C's name
(with a fresh creation timestamp); (3) and (4): a category referenced by
at least two tasks — so at least one task remains after the removal or
reassignment of one — is never deleted, by `remove` or by `update`.  The
deletion test `refs.length <= 1` counts the task being removed or
reassigned, so it equals "referencing tasks excluding that one = 0". -/
theorem c2_orphan_cleanup :
    (∀ (db : DB) (idv : JSVal) (task C : JSObj) (cid : Nat),
      Store.findById db.tasks idv = some task →
      getField task "categoryId" = .num cid →
      (Store.find [("categoryId", .num cid)] db.tasks).length = 1 →
      C ∈ db.categories →
      looseEq (getField C "id") (.num cid) = true →
      (∀ c ∈ db.categories, looseEq (getField c "id") (.num cid) = true → c = C) →
      db.categories.Nodup →
      C ∉ (Model.remove db idv).1.categories) ∧
    (∀ (db : DB) (data : JSObj) (t t2 : Nat) (idv : JSVal) (cid : Nat) (task C : JSObj),
      hasField data "categoryName" = true →
      getField C "name" ≠ getField data "categoryName" →
      C ∈ db.categories →
      looseEq (getField C "id") (.num cid) = true →
      (∀ c ∈ db.categories, looseEq (getField c "id") (.num cid) = true → c = C) →
      db.categories.Nodup →
      t ≠ cid →
      Store.findById db.tasks idv = some task →
      getField task "categoryId" = .num cid →
      (Store.find [("categoryId", .num cid)] db.tasks).length = 1 →
      C ∉ (Model.update db idv data t t2).1.categories) ∧
    (∀ (db : DB) (idv : JSVal) (task C : JSObj) (cid : Nat),
      Store.findById db.tasks idv = some task →
      getField task "categoryId" = .num cid →
      2 ≤ (Store.find [("categoryId", .num cid)] db.tasks).length →
      C ∈ db.categories →
      C ∈ (Model.remove db idv).1.categories) ∧
    (∀ (db : DB) (data : JSObj) (t t2 : Nat) (idv : JSVal) (cid : Nat) (task C : JSObj),
      hasField data "categoryName" = true →
      Store.findById db.tasks idv = some task →
      getField task "categoryId" = .num cid →
      2 ≤ (Store.find [("categoryId", .num cid)] db.tasks).length →
      C ∈ db.categories →
      C ∈ (Model.update db idv data t t2).1.categories) :=
  ⟨fun db idv task C cid h1 h2 h3 h4 h5 h6 h7 =>
      Model.remove_deletes_orphan db idv task C cid h1 h2 h3 h4 h5 h6 h7,
   fun db data t t2 idv cid task C h1 h2 h3 h4 h5 h6 h7 h8 h9 h10 =>
      Model.update_deletes_orphan db data t t2 idv cid task C h1 h2 h3 h4 h5 h6 h7 h8 h9 h10,
   fun db idv task C cid h1 h2 h3 h4 =>
      Model.remove_keeps_referenced db idv task C cid h1 h2 h3 h4,
   fun db data t t2 idv cid task C h1 h2 h3 h4 h5 =>
      Model.update_keeps_referenced db data t t2 idv cid task C h1 h2 h3 h4 h5⟩

/-- C2, witness: concrete instances of all four parts of
`c2_orphan_cleanup` — a sole-member category disappears on task removal
and on reassignment to the name `"Y"`, while a category with two
referencing tasks survives both operations. -/
theorem c2_orphan_cleanup_witness :
    [("name", JSVal.str "Solo"), ("id", JSVal.num 1)] ∉
      (Model.remove ⟨[[("categoryId", JSVal.num 1), ("id", JSVal.num 2)]],
        [[("name", JSVal.str "Solo"), ("id", JSVal.num 1)]]⟩ (.num 2)).1.categories ∧
    [("name", JSVal.str "W"), ("id", JSVal.num 1)] ∉
      (Model.update ⟨[[("categoryId", JSVal.num 1), ("id", JSVal.num 2)]],
        [[("name", JSVal.str "W"), ("id", JSVal.num 1)]]⟩ (.num 2)
        [("categoryName", JSVal.str "Y")] 5 6).1.categories ∧
    [("name", JSVal.str "W"), ("id", JSVal.num 1)] ∈
      (Model.remove ⟨[[("categoryId", JSVal.num 1), ("id", JSVal.num 2)],
          [("categoryId", JSVal.num 1), ("id", JSVal.num 3)]],
        [[("name", JSVal.str "W"), ("id", JSVal.num 1)]]⟩ (.num 2)).1.categories ∧
    [("name", JSVal.str "W"), ("id", JSVal.num 1)] ∈
      (Model.update ⟨[[("categoryId", JSVal.num 1), ("id", JSVal.num 2)],
          [("categoryId", JSVal.num 1), ("id", JSVal.num 3)]],
        [[("name", JSVal.str "W"), ("id", JSVal.num 1)]]⟩ (.num 2)
        [("categoryName", JSVal.str "Y")] 5 6).1.categories :=
  ⟨c2_orphan_cleanup.1 _ (.num 2) [("categoryId", JSVal.num 1), ("id", JSVal.num 2)]
      [("name", JSVal.str "Solo"), ("id", JSVal.num 1)] 1
      (by decide) (by decide) (by decide) (by decide) (by decide) (by decide) (by decide),
   c2_orphan_cleanup.2.1 _ [("categoryName", JSVal.str "Y")] 5 6 (.num 2) 1
      [("categoryId", JSVal.num 1), ("id", JSVal.num 2)]
      [("name", JSVal.str "W"), ("id", JSVal.num 1)]
      (by decide) (by decide) (by decide) (by decide) (by decide) (by decide) (by decide)
      (by decide) (by decide) (by decide),
   c2_orphan_cleanup.2.2.1 _ (.num 2) [("categoryId", JSVal.num 1), ("id", JSVal.num 2)]
      [("name", JSVal.str "W"), ("id", JSVal.num 1)] 1
      (by decide) (by decide) (by decide) (by decide),
   c2_orphan_cleanup.2.2.2 _ [("categoryName", JSVal.str "Y")] 5 6 (.num 2) 1
      [("categoryId", JSVal.num 1), ("id", JSVal.num 2)]
      [("name", JSVal.str "W"), ("id", JSVal.num 1)]
      (by decide) (by decide) (by decide) (by decide) (by decide)⟩
